import Mathlib

/-!
Verification of the schema-matching core of the grpc-polyglot
`protoc-adapter-py` tool: name normalization, the entity/field data
model, the proto/C++ AST transformers, the matcher, and the
reply-envelope post-processor, embedded shallowly from the Python
sources.
-/

namespace Polyglot

/-- `models.normalize`: remove all underscores and uppercase (ASCII). -/
def normalize (name : String) : String :=
  ⟨(name.data.filter (fun c => c != '_')).map Char.toUpper⟩

/-- The underscore-removal half of `normalize` (`name.replace("_", "")`). -/
def removeUnderscores (s : String) : String :=
  ⟨s.data.filter (fun c => c != '_')⟩

/-- ASCII uppercasing of a whole string (`str.upper` on ASCII input). -/
def asciiUpper (s : String) : String :=
  ⟨s.data.map Char.toUpper⟩

/-- ASCII lowercasing of a whole string, used to say two names differ
only in ASCII letter case. -/
def asciiLower (s : String) : String :=
  ⟨s.data.map Char.toLower⟩

mutual

/-- `models.Message`: original_name, normalized_name, fields, source_file. -/
inductive Message : Type where
  | mk (original_name : String) (normalized_name : String)
       (fields : List Fld) (source_file : String)

/-- `models.Field`: original_name, normalized_name, type_name,
is_repeated, is_nested, nested_type. -/
inductive Fld : Type where
  | mk (original_name : String) (normalized_name : String) (type_name : String)
       (is_repeated : Bool) (is_nested : Bool) (nested_type : Option Message)

end

def Message.original_name : Message → String
  | .mk o _ _ _ => o

def Message.normalized_name : Message → String
  | .mk _ n _ _ => n

def Message.fields : Message → List Fld
  | .mk _ _ fs _ => fs

def Message.source_file : Message → String
  | .mk _ _ _ s => s

def Fld.original_name : Fld → String
  | .mk o _ _ _ _ _ => o

def Fld.normalized_name : Fld → String
  | .mk _ n _ _ _ _ => n

def Fld.type_name : Fld → String
  | .mk _ _ t _ _ _ => t

def Fld.is_repeated : Fld → Bool
  | .mk _ _ _ r _ _ => r

def Fld.is_nested : Fld → Bool
  | .mk _ _ _ _ n _ => n

def Fld.nested_type : Fld → Option Message
  | .mk _ _ _ _ _ t => t

/-- `models.FieldMapping`. -/
structure FieldMapping where
  proto_field : Fld
  cpp_field : Fld
  is_reply_header : Bool

/-- `models.MessageMatch`. -/
structure MessageMatch where
  proto_message : Message
  cpp_message : Message
  field_mappings : List FieldMapping

/-- Index of the last element satisfying `p`: lookup in a Python dict built
by one insertion pass over the list (later entries overwrite earlier ones),
with values modelled as positions into the list. -/
def lastIdxWhere {α : Type} (p : α → Bool) : List α → Option Nat
  | [] => none
  | a :: rest =>
    match lastIdxWhere p rest with
    | some i => some (i + 1)
    | none => if p a then some 0 else none

/-- Lookup in a Python dict built by inserting the pairs in list order
(later pairs overwrite earlier ones with the same key). -/
def dictGet? {α : Type} (entries : List (String × α)) (key : String) : Option α :=
  match entries with
  | [] => none
  | (k, v) :: rest =>
    match dictGet? rest key with
    | some r => some r
    | none => if k == key then some v else none

def listModify {α : Type} : List α → Nat → (α → α) → List α
  | [], _, _ => []
  | a :: rest, 0, g => g a :: rest
  | a :: rest, i + 1, g => a :: listModify rest i g

def dummyMessage : Message := .mk "" "" [] ""

def dummyFld : Fld := .mk "" "" "" false false none

def Message.withFields (m : Message) (fs : List Fld) : Message :=
  .mk m.original_name m.normalized_name fs m.source_file

/-- The matcher mutation `cpp_field.is_nested = True; cpp_field.nested_type = nested_cpp`. -/
def Fld.setNestedCpp (f : Fld) (nt : Message) : Fld :=
  .mk f.original_name f.normalized_name f.type_name f.is_repeated true (some nt)

/-- The matcher mutation `cpp_field.is_repeated = True`. -/
def Fld.setRepeated (f : Fld) : Fld :=
  .mk f.original_name f.normalized_name f.type_name true f.is_nested f.nested_type

def storeGetMsg (store : List Message) (ci : Nat) : Message :=
  store.getD ci dummyMessage

def storeModifyFld (store : List Message) (ci fj : Nat) (g : Fld → Fld) : List Message :=
  listModify store ci (fun m => m.withFields (listModify m.fields fj g))

/-- The name parts of a field, which no matcher mutation ever changes. -/
def fldSkel (f : Fld) : String × String :=
  (f.original_name, f.normalized_name)

/-- The name parts of a message (its own names and its fields' names),
which no matcher mutation ever changes. -/
def msgSkel (m : Message) : String × String × List (String × String) :=
  (m.original_name, m.normalized_name, m.fields.map fldSkel)

/-- `matcher.match_messages`'s `cpp_by_norm` dict, as a map from normalized
name to the position of the last C++ message carrying it. -/
def cppIdxOf (cpp_messages : List Message) (key : String) : Option Nat :=
  lastIdxWhere (fun m => m.normalized_name == key) cpp_messages

/-- `matcher._match_fields`'s `cpp_fields_by_norm` dict: position of the
last field of `m` with the given normalized name. -/
def fldLookup (m : Message) (key : String) : Option Nat :=
  lastIdxWhere (fun f => f.normalized_name == key) m.fields

/-- Python list repr of a list of (quote-free) strings, as interpolated into
the MatchError f-string. -/
def pyStrListRepr (xs : List String) : String :=
  "[" ++ String.intercalate ", " (xs.map (fun s => "'" ++ s ++ "'")) ++ "]"

/-- The `MatchError` message raised by `matcher._match_fields`. -/
def matchErrorMessage (proto_field : Fld) (proto_msg cpp_msg : Message) : String :=
  "Unmatched proto field '" ++ proto_field.original_name ++ "' (normalized: " ++
    proto_field.normalized_name ++ ") in message '" ++ proto_msg.original_name ++
    "'. No matching C++ field found in struct '" ++ cpp_msg.original_name ++
    "'. Available C++ fields: " ++ pyStrListRepr (cpp_msg.fields.map Fld.original_name)

/-- The two in-place mutations `_match_fields` applies to the paired C++
field (slot `fj` of message `ci`) for one proto field: nested-type
resolution and repeated widening. -/
def stepStore (cppIdx : String → Option Nat) (ci fj : Nat) (pf : Fld)
    (store : List Message) : List Message :=
  let store1 :=
    if pf.is_nested then
      match cppIdx (match pf.nested_type with
        | some nt => nt.normalized_name
        | none => normalize pf.type_name) with
      | some mi => storeModifyFld store ci fj (fun f => f.setNestedCpp (storeGetMsg store mi))
      | none => store
    else store
  if pf.is_repeated then storeModifyFld store1 ci fj Fld.setRepeated else store1

/-- `matcher._match_fields`, with the C++ side held in an explicit store of
messages so that Python's in-place mutation of struct fields becomes state
passing: the matched C++ message is slot `ci`, a field is addressed by its
position, and on MatchError the store as mutated so far is returned with
the error. Field lookup recomputes the fields dict over the current store,
which agrees with the dict built at entry because the mutations never touch
a normalized name. A `FieldMapping` records the paired slot's value after
this step's mutations (Python stores a reference into the store; the
post-state of the store itself is the second component of the result). -/
def matchFieldsGo (cppIdx : String → Option Nat) (proto_msg : Message) (ci : Nat) :
    List Fld → List Message → Except String (List FieldMapping) × List Message
  | [], store => (.ok [], store)
  | pf :: rest, store =>
    match fldLookup (storeGetMsg store ci) pf.normalized_name with
    | none => (.error (matchErrorMessage pf proto_msg (storeGetMsg store ci)), store)
    | some fj =>
      let store2 := stepStore cppIdx ci fj pf store
      let mapping : FieldMapping :=
        ⟨pf, (storeGetMsg store2 ci).fields.getD fj dummyFld, false⟩
      match matchFieldsGo cppIdx proto_msg ci rest store2 with
      | (.ok maps, store3) => (.ok (mapping :: maps), store3)
      | (.error e, store3) => (.error e, store3)

/-- The per-proto-message loop of `matcher.match_messages`. -/
def matchMessagesGo (cppIdx : String → Option Nat) :
    List Message → List Message → Except String (List MessageMatch) × List Message
  | [], store => (.ok [], store)
  | pm :: rest, store =>
    match cppIdx pm.normalized_name with
    | none => matchMessagesGo cppIdx rest store
    | some ci =>
      match matchFieldsGo cppIdx pm ci pm.fields store with
      | (.error e, store1) => (.error e, store1)
      | (.ok maps, store1) =>
        match matchMessagesGo cppIdx rest store1 with
        | (.ok ms, store2) => (.ok (⟨pm, storeGetMsg store1 ci, maps⟩ :: ms), store2)
        | (.error e, store2) => (.error e, store2)

/-- `matcher.match_messages`. The first component is the returned match
list (or the raised MatchError message); the second is the final state of
the `cpp_messages` argument, which the pass mutates in place. -/
def match_messages (proto_messages cpp_messages : List Message) :
    Except String (List MessageMatch) × List Message :=
  matchMessagesGo (cppIdxOf cpp_messages) proto_messages cpp_messages

/-! `rep_message_handler.py`: the reply-envelope post-processing pass. -/

def MSG_HEADER_TYPE_NAME : String := "msgHeader"

def WEB_SERVICE_REPLY_HEADER_CLASS : String := "WebServiceReplyHeader"

def HEADER_FIELD_RENAMES : List (String × String) :=
  [("retCode", "returnCode"), ("msgOwnId", "returnMessage")]

/-- Python `str.capitalize` on ASCII input: first character uppercased,
the rest lowercased. -/
def pyCapitalize (s : String) : String :=
  match s.data with
  | [] => ""
  | c :: cs => ⟨c.toUpper :: cs.map Char.toLower⟩

/-- `rep_message_handler._snake_to_camel`. -/
def snakeToCamel (name : String) : String :=
  match name.splitOn "_" with
  | [] => ""
  | p :: ps => p ++ String.join (ps.map pyCapitalize)

/-- `rep_message_handler.is_rep_message`
(`original_name.startswith("Rep")`, stated over the character list). -/
def is_rep_message (proto_message : Message) : Bool :=
  "Rep".data.isPrefixOf proto_message.original_name.data

/-- `rep_message_handler.find_msg_header_field`. -/
def find_msg_header_field (proto_message : Message) : Option Fld :=
  proto_message.fields.find? fun f =>
    f.is_nested && (normalize f.type_name == normalize MSG_HEADER_TYPE_NAME)

/-- Remove the first list element satisfying `p`: the effect of Python's
`[f for f in msg.fields if f is not header_field]` where `header_field` is
the object `find` returned. -/
def removeFirstWhere {α : Type} (p : α → Bool) : List α → List α
  | [] => []
  | a :: rest => if p a then rest else a :: removeFirstWhere p rest

/-- `rep_message_handler.strip_msg_header_fields`: msgHeader fields are
removed from Rep* messages, and recorded in a dict keyed by the owning
message's original name. -/
def strip_msg_header_fields (proto_messages : List Message) :
    List Message × List (String × Fld) :=
  match proto_messages with
  | [] => ([], [])
  | msg :: rest =>
    let pr := strip_msg_header_fields rest
    if is_rep_message msg then
      match find_msg_header_field msg with
      | some header_field =>
        (msg.withFields (removeFirstWhere
            (fun f => f.is_nested && (normalize f.type_name == normalize MSG_HEADER_TYPE_NAME))
            msg.fields) :: pr.1,
          (msg.original_name, header_field) :: pr.2)
      | none => (msg :: pr.1, pr.2)
    else (msg :: pr.1, pr.2)

/-- `rep_message_handler.resolve_msg_header_definition`. -/
def resolve_msg_header_definition (proto_messages : List Message) : Option Message :=
  proto_messages.find? fun m =>
    normalize m.original_name == normalize MSG_HEADER_TYPE_NAME

/-- `rep_message_handler.remove_msg_header_message`. -/
def remove_msg_header_message (proto_messages : List Message) : List Message :=
  proto_messages.filter fun m =>
    !(normalize m.original_name == normalize MSG_HEADER_TYPE_NAME)

/-- The `Field` constructed for one renamed header field inside
`build_web_service_reply_header_match`. -/
def renamedHeaderFld (proto_field : Fld) (renamed_name : String) : Fld :=
  .mk renamed_name (normalize renamed_name) proto_field.type_name
    proto_field.is_repeated proto_field.is_nested none

/-- `rep_message_handler.build_web_service_reply_header_match`. -/
def build_web_service_reply_header_match (msg_header_definition : Message) : MessageMatch :=
  let picked := msg_header_definition.fields.filterMap fun proto_field =>
    match dictGet? HEADER_FIELD_RENAMES proto_field.original_name with
    | some renamed_name => some (proto_field, renamedHeaderFld proto_field renamed_name)
    | none => none
  { proto_message := msg_header_definition
    cpp_message := .mk WEB_SERVICE_REPLY_HEADER_CLASS
      (normalize WEB_SERVICE_REPLY_HEADER_CLASS) (picked.map Prod.snd) "<synthetic>"
    field_mappings := picked.map fun pr => ⟨pr.1, pr.2, false⟩ }

/-- The mutation of the stripped header field inside
`inject_header_field_mappings`: link its nested_type to the msgHeader
definition when it is still null. -/
def linkNestedType (f : Fld) (msg_header_def : Option Message) : Fld :=
  match f.nested_type, msg_header_def with
  | none, some d => .mk f.original_name f.normalized_name f.type_name
      f.is_repeated f.is_nested (some d)
  | _, _ => f

/-- The synthetic struct-side field built by `inject_header_field_mappings`. -/
def syntheticHeaderFld (header_field : Fld) : Fld :=
  .mk (if header_field.original_name.contains '_' then
        snakeToCamel header_field.original_name
      else header_field.original_name)
    header_field.normalized_name WEB_SERVICE_REPLY_HEADER_CLASS false true none

/-- The body of `inject_header_field_mappings`'s loop, for one match. -/
def injectHeaderOne (stripped_fields : List (String × Fld))
    (msg_header_def : Option Message) (mtch : MessageMatch) : MessageMatch :=
  match dictGet? stripped_fields mtch.proto_message.original_name with
  | none => mtch
  | some original_header_field =>
    let hf := linkNestedType original_header_field msg_header_def
    { mtch with field_mappings := ⟨hf, syntheticHeaderFld hf, true⟩ :: mtch.field_mappings }

/-- `rep_message_handler.inject_header_field_mappings`. -/
def inject_header_field_mappings (ms : List MessageMatch)
    (stripped_fields : List (String × Fld)) (msg_header_def : Option Message) :
    List MessageMatch :=
  ms.map (injectHeaderOne stripped_fields msg_header_def)

/-! `parser/proto_ast.py` and `parser/proto_transform.py`. -/

/-- `proto_ast.ProtoField`. -/
structure ProtoFieldNode where
  type_name : String
  field_name : String
  field_number : Nat
  is_repeated : Bool

/-- `proto_ast.ProtoMessage`. -/
inductive ProtoMessageNode : Type where
  | mk (name : String) (fields : List ProtoFieldNode)
       (nested_messages : List ProtoMessageNode)

def ProtoMessageNode.name : ProtoMessageNode → String
  | .mk n _ _ => n

def ProtoMessageNode.fieldNodes : ProtoMessageNode → List ProtoFieldNode
  | .mk _ fs _ => fs

def ProtoMessageNode.nested_messages : ProtoMessageNode → List ProtoMessageNode
  | .mk _ _ ns => ns

/-- `proto_transform.PROTO_PRIMITIVES` (a set; membership is all that is
used). -/
def PROTO_PRIMITIVES : List String :=
  ["int32", "sint32", "sfixed32", "uint32", "fixed32",
   "int64", "sint64", "sfixed64", "uint64", "fixed64",
   "float", "double", "bool", "string", "bytes"]

/-- The field constructed by `proto_transform._transform_message` for one
AST field: `is_nested` marks any non-primitive type name, while
`nested_type` is looked up in the direct-child dict. -/
def protoFieldOf (nestedEntries : List (String × Message)) (f : ProtoFieldNode) : Fld :=
  Fld.mk f.field_name (normalize f.field_name) f.type_name f.is_repeated
    (!(PROTO_PRIMITIVES.contains f.type_name))
    (dictGet? nestedEntries f.type_name)

/-- `_transform_message`'s `nested_by_name` dict: the recursively
flattened nested messages whose name is a direct-child name, keyed by
original name. -/
def protoNestedEntries (nested : List ProtoMessageNode) (msgs : List Message) :
    List (String × Message) :=
  msgs.filterMap fun m =>
    if (nested.map ProtoMessageNode.name).contains m.original_name then
      some (m.original_name, m)
    else none

mutual

/-- `proto_transform._transform_message`. -/
def transformProtoMessage : ProtoMessageNode → String → List Message
  | .mk name flds nested, source_file =>
    Message.mk name (normalize name)
      (flds.map (protoFieldOf
        (protoNestedEntries nested (protoNestedMsgs nested source_file))))
      source_file :: protoNestedMsgs nested source_file

/-- The `nested_messages` accumulation loop of `_transform_message`. -/
def protoNestedMsgs : List ProtoMessageNode → String → List Message
  | [], _ => []
  | n :: rest, source_file =>
    transformProtoMessage n source_file ++ protoNestedMsgs rest source_file

end

/-- `proto_transform.transform_proto`. -/
def transform_proto (ast_messages : List ProtoMessageNode) (source_file : String) :
    List Message :=
  (ast_messages.map fun m => transformProtoMessage m source_file).flatten

/-! `parser/cpp_tokenizer.py` token model, `parser/cpp_ast.py`, and
`parser/cpp_ast_parser.py`. A token list stands for the tokenizer output
with its trailing EOF token left implicit: reading past the end of the
list behaves as reading the EOF token, exactly as the Python parser's
`_peek`/`_advance` behave on the EOF-terminated stream. -/

/-- `cpp_tokenizer.CppTokenType`. -/
inductive CppTokT : Type where
  | STRUCT | TYPEDEF | CHAR
  | LBRACE | RBRACE | SEMICOLON | LANGLE | RANGLE
  | LBRACKET | RBRACKET | COLONCOLON | COLON
  | IDENT | NUMBER | EOF
deriving DecidableEq, Repr

/-- `cpp_tokenizer.CppToken`. -/
structure CppToken where
  type : CppTokT
  value : String
  line : Nat
  col : Nat
deriving DecidableEq, Repr

def eofToken : CppToken := ⟨.EOF, "", 0, 0⟩

def peekTok : List CppToken → CppToken
  | [] => eofToken
  | t :: _ => t

def peekT (toks : List CppToken) : CppTokT :=
  (peekTok toks).type

/-- `CppParser._peek_at`. -/
def peekAtT (toks : List CppToken) (offset : Nat) : CppTokT :=
  ((toks.drop offset).headD eofToken).type

/-- A `CppParseError` raised at an `_expect` call: the expected token type
and the offending token (which carries the line/column reported). -/
structure CppParseErr where
  expected : CppTokT
  got : CppToken
deriving DecidableEq, Repr

/-- `CppParser._expect`. -/
def expectT (expected : CppTokT) (toks : List CppToken) :
    Except CppParseErr (CppToken × List CppToken) :=
  let tok := peekTok toks
  if tok.type = expected then .ok (tok, toks.drop 1)
  else .error ⟨expected, tok⟩

/-- `CppParser._skip_to_semicolon`. -/
def skipToSemicolon : List CppToken → List CppToken
  | [] => []
  | t :: rest => if t.type = .SEMICOLON then rest else skipToSemicolon rest

/-- The depth-tracking loop of `CppParser._skip_to_matching_brace`. -/
def skipDepth : List CppToken → Nat → List CppToken
  | ts, 0 => ts
  | [], _ => []
  | t :: rest, d + 1 =>
    match t.type with
    | .LBRACE => skipDepth rest (d + 2)
    | .RBRACE => skipDepth rest d
    | _ => skipDepth rest (d + 1)

/-- `CppParser._skip_to_matching_brace`. -/
def skipToMatchingBrace (toks : List CppToken) : List CppToken :=
  if peekT toks = .LBRACE then skipDepth (toks.drop 1) 1 else toks

/-- `cpp_ast.CppFieldDecl`. -/
structure CppFieldDecl where
  type_name : String
  field_name : String
  is_vector : Bool
  is_char_array : Bool
  is_array : Bool
deriving DecidableEq, Repr

/-- `cpp_ast.CppTypeAlias`. -/
structure CppTypeAlias where
  new_name : String
  existing_type : String
  is_struct_alias : Bool
deriving DecidableEq, Repr

mutual

/-- One entry of a struct body's field list:
`Union[CppFieldDecl, CppAnonymousStructField]`. -/
inductive CppStructFld : Type where
  | decl (d : CppFieldDecl)
  | anon (a : CppAnonF)

/-- `cpp_ast.CppAnonymousStructField`. -/
inductive CppAnonF : Type where
  | mk (field_name : String) (fields : List CppStructFld)

end

/-- `cpp_ast.CppStruct`. -/
inductive CppStruct : Type where
  | mk (name : Option String) (is_anonymous_typedef : Bool)
       (typedef_name : Option String) (fields : List CppStructFld)
       (nested_structs : List CppStruct)

/-- `cpp_ast.CppHeader`. -/
structure CppHeader where
  type_aliases : List CppTypeAlias
  structs : List CppStruct

/-- `CppParser._parse_inner_type`. -/
def parseInnerType (toks : List CppToken) :
    Except CppParseErr (String × List CppToken) :=
  let toks1 :=
    if peekT toks = .IDENT ∧ (peekTok toks).value = "std" ∧
        peekAtT toks 1 = .COLONCOLON then
      toks.drop 2
    else toks
  match expectT .IDENT toks1 with
  | .error e => .error e
  | .ok (tok, rest) => .ok (tok.value, rest)

/-- `CppParser._try_parse_type_spec`. A `none` result corresponds to
Python's `return None`, which does not restore the saved position (so the
returned remainder may already be past a consumed `std::`). -/
def tryParseTypeSpec (toks : List CppToken) :
    Except CppParseErr (Option (String × Bool × String) × List CppToken) :=
  if peekT toks ≠ .IDENT then .ok (none, toks)
  else
    let toks1 :=
      if (peekTok toks).value = "std" ∧ peekAtT toks 1 = .COLONCOLON then
        toks.drop 2
      else toks
    if peekT toks1 ≠ .IDENT then .ok (none, toks1)
    else
      let type_name := (peekTok toks1).value
      let toks2 := toks1.drop 1
      if (type_name = "vector" ∨ type_name = "list") ∧ peekT toks2 = .LANGLE then
        match parseInnerType (toks2.drop 1) with
        | .error e => .error e
        | .ok (inner, toks3) =>
          match expectT .RANGLE toks3 with
          | .error e => .error e
          | .ok (_, toks4) => .ok (some (type_name, true, inner), toks4)
      else .ok (some (type_name, false, ""), toks2)

/-- `CppParser._try_parse_field_decl`. A `none` result models Python's
`return None`; the position is restored to the entry position at the
explicit `self._pos = saved` sites, and deliberately not restored after a
`None` from `_try_parse_type_spec` (mirroring the source). -/
def tryParseFieldDecl (toks : List CppToken) :
    Except CppParseErr (Option CppFieldDecl × List CppToken) :=
  if peekT toks = .CHAR then
    let toks1 := toks.drop 1
    if peekT toks1 ≠ .IDENT then .ok (none, toks)
    else
      let field_name := (peekTok toks1).value
      let toks2 := toks1.drop 1
      if peekT toks2 = .LBRACKET then
        let toks3 := toks2.drop 1
        let toks4 := if peekT toks3 = .NUMBER then toks3.drop 1 else toks3
        match expectT .RBRACKET toks4 with
        | .error e => .error e
        | .ok (_, toks5) =>
          match expectT .SEMICOLON toks5 with
          | .error e => .error e
          | .ok (_, toks6) =>
            .ok (some ⟨"char", field_name, false, true, false⟩, toks6)
      else if peekT toks2 = .SEMICOLON then
        .ok (some ⟨"char", field_name, false, false, false⟩, toks2.drop 1)
      else .ok (none, toks)
  else
    match tryParseTypeSpec toks with
    | .error e => .error e
    | .ok (none, toks1) => .ok (none, toks1)
    | .ok (some (type_name, is_vec, inner), toks1) =>
      if is_vec then
        if peekT toks1 ≠ .IDENT then .ok (none, toks)
        else
          let field_name := (peekTok toks1).value
          match expectT .SEMICOLON (toks1.drop 1) with
          | .error e => .error e
          | .ok (_, toks2) =>
            .ok (some ⟨inner, field_name, true, false, false⟩, toks2)
      else
        if peekT toks1 ≠ .IDENT then .ok (none, toks)
        else
          let field_name := (peekTok toks1).value
          let toks2 := toks1.drop 1
          if peekT toks2 = .LBRACKET then
            let toks3 := toks2.drop 1
            let toks4 := if peekT toks3 = .NUMBER then toks3.drop 1 else toks3
            match expectT .RBRACKET toks4 with
            | .error e => .error e
            | .ok (_, toks5) =>
              match expectT .SEMICOLON toks5 with
              | .error e => .error e
              | .ok (_, toks6) =>
                .ok (some ⟨type_name, field_name, false, false, true⟩, toks6)
          else if peekT toks2 = .SEMICOLON then
            .ok (some ⟨type_name, field_name, false, false, false⟩, toks2.drop 1)
          else .ok (none, toks)

/-- `CppParser._parse_simple_type_ref`. -/
def parseSimpleTypeRef (toks : List CppToken) :
    Except CppParseErr (String × List CppToken) :=
  if peekT toks = .IDENT ∧ (peekTok toks).value = "std" ∧
      peekAtT toks 1 = .COLONCOLON then
    match expectT .IDENT (toks.drop 2) with
    | .error e => .error e
    | .ok (tok, rest) => .ok (tok.value, rest)
  else if peekT toks = .CHAR then
    .ok ((peekTok toks).value, toks.drop 1)
  else
    match expectT .IDENT toks with
    | .error e => .error e
    | .ok (tok, rest) => .ok (tok.value, rest)

def ACCESS_SPECIFIERS : List String := ["public", "private", "protected"]

/-- Error used when the fuel parameter of the recursive-descent parser runs
out; with the fuel the entry points supply it is never reached on inputs
the Python parser terminates on. -/
def fuelErr : CppParseErr := ⟨.EOF, eofToken⟩

mutual

/-- `CppParser._parse_struct_body` (the `while` loop becomes recursion; one
recursive call per loop iteration). -/
def parseStructBody (fuel : Nat) (toks : List CppToken) :
    Except CppParseErr (List CppStructFld × List CppStruct × List CppToken) :=
  match fuel with
  | 0 => .error fuelErr
  | fuel + 1 =>
    if peekT toks = .EOF ∨ peekT toks = .RBRACE then .ok ([], [], toks)
    else if peekT toks = .STRUCT then
      if peekAtT toks 1 = .LBRACE then
        match parseAnonymousStructField fuel toks with
        | .error e => .error e
        | .ok (a, toks1) =>
          match parseStructBody fuel toks1 with
          | .error e => .error e
          | .ok (flds, nested, toks2) => .ok (.anon a :: flds, nested, toks2)
      else if peekAtT toks 1 = .IDENT then
        match parseNamedNestedStruct fuel toks with
        | .error e => .error e
        | .ok (st, toks1) =>
          match parseStructBody fuel toks1 with
          | .error e => .error e
          | .ok (flds, nested, toks2) => .ok (flds, st :: nested, toks2)
      else parseStructBody fuel (toks.drop 1)
    else if peekT toks = .TYPEDEF then
      parseStructBody fuel (skipToSemicolon toks)
    else if peekT toks = .IDENT ∧ ACCESS_SPECIFIERS.contains (peekTok toks).value ∧
        peekAtT toks 1 = .COLON then
      parseStructBody fuel (toks.drop 2)
    else
      match tryParseFieldDecl toks with
      | .error e => .error e
      | .ok (some d, toks1) =>
        match parseStructBody fuel toks1 with
        | .error e => .error e
        | .ok (flds, nested, toks2) => .ok (.decl d :: flds, nested, toks2)
      | .ok (none, toks1) => parseStructBody fuel (toks1.drop 1)

/-- `CppParser._parse_anonymous_struct_field`. -/
def parseAnonymousStructField (fuel : Nat) (toks : List CppToken) :
    Except CppParseErr (CppAnonF × List CppToken) :=
  match fuel with
  | 0 => .error fuelErr
  | fuel + 1 =>
    match expectT .STRUCT toks with
    | .error e => .error e
    | .ok (_, toks1) =>
      match expectT .LBRACE toks1 with
      | .error e => .error e
      | .ok (_, toks2) =>
        match parseStructBody fuel toks2 with
        | .error e => .error e
        | .ok (inner_fields, _, toks3) =>
          match expectT .RBRACE toks3 with
          | .error e => .error e
          | .ok (_, toks4) =>
            match expectT .IDENT toks4 with
            | .error e => .error e
            | .ok (nameTok, toks5) =>
              match expectT .SEMICOLON toks5 with
              | .error e => .error e
              | .ok (_, toks6) => .ok (.mk nameTok.value inner_fields, toks6)

/-- `CppParser._parse_named_nested_struct`. Note the forward-declaration
branch returns a `CppStruct` with empty body, which the struct-body loop
appends to `nested_structs`. -/
def parseNamedNestedStruct (fuel : Nat) (toks : List CppToken) :
    Except CppParseErr (CppStruct × List CppToken) :=
  match fuel with
  | 0 => .error fuelErr
  | fuel + 1 =>
    match expectT .STRUCT toks with
    | .error e => .error e
    | .ok (_, toks1) =>
      match expectT .IDENT toks1 with
      | .error e => .error e
      | .ok (nameTok, toks2) =>
        if peekT toks2 ≠ .LBRACE then
          .ok (.mk (some nameTok.value) false none [] [], skipToSemicolon toks2)
        else
          match parseStructBody fuel (toks2.drop 1) with
          | .error e => .error e
          | .ok (flds, nested, toks3) =>
            match expectT .RBRACE toks3 with
            | .error e => .error e
            | .ok (_, toks4) =>
              match expectT .SEMICOLON toks4 with
              | .error e => .error e
              | .ok (_, toks5) =>
                .ok (.mk (some nameTok.value) false none flds nested, toks5)

end

/-- `CppParser._parse_top_level_struct`. -/
def parseTopLevelStruct (fuel : Nat) (toks : List CppToken) :
    Except CppParseErr (Option CppStruct × List CppToken) :=
  match expectT .STRUCT toks with
  | .error e => .error e
  | .ok (_, toks1) =>
    if peekT toks1 ≠ .IDENT then
      let toks2 := skipToMatchingBrace toks1
      let toks3 := if peekT toks2 = .SEMICOLON then toks2.drop 1 else toks2
      .ok (none, toks3)
    else
      let name := (peekTok toks1).value
      let toks2 := toks1.drop 1
      if peekT toks2 ≠ .LBRACE then .ok (none, skipToSemicolon toks2)
      else
        match parseStructBody fuel (toks2.drop 1) with
        | .error e => .error e
        | .ok (flds, nested, toks3) =>
          match expectT .RBRACE toks3 with
          | .error e => .error e
          | .ok (_, toks4) =>
            match expectT .SEMICOLON toks4 with
            | .error e => .error e
            | .ok (_, toks5) =>
              .ok (some (.mk (some name) false none flds nested), toks5)

/-- Result of `CppParser._parse_typedef` (`CppTypeAlias`, `CppStruct`, or
`None`). -/
inductive TypedefResult : Type where
  | alias (a : CppTypeAlias)
  | strct (s : CppStruct)
  | skipped

/-- `CppParser._parse_typedef`. -/
def parseTypedef (fuel : Nat) (toks : List CppToken) :
    Except CppParseErr (TypedefResult × List CppToken) :=
  match expectT .TYPEDEF toks with
  | .error e => .error e
  | .ok (_, toks1) =>
    if peekT toks1 = .STRUCT then
      let toks2 := toks1.drop 1
      if peekT toks2 = .LBRACE then
        match parseStructBody fuel (toks2.drop 1) with
        | .error e => .error e
        | .ok (flds, nested, toks3) =>
          match expectT .RBRACE toks3 with
          | .error e => .error e
          | .ok (_, toks4) =>
            match expectT .IDENT toks4 with
            | .error e => .error e
            | .ok (nameTok, toks5) =>
              match expectT .SEMICOLON toks5 with
              | .error e => .error e
              | .ok (_, toks6) =>
                .ok (.strct (.mk none true (some nameTok.value) flds nested), toks6)
      else if peekT toks2 = .IDENT then
        let name := (peekTok toks2).value
        let toks3 := toks2.drop 1
        if peekT toks3 = .LBRACE then
          match parseStructBody fuel (toks3.drop 1) with
          | .error e => .error e
          | .ok (flds, nested, toks4) =>
            match expectT .RBRACE toks4 with
            | .error e => .error e
            | .ok (_, toks5) =>
              match expectT .SEMICOLON toks5 with
              | .error e => .error e
              | .ok (_, toks6) =>
                .ok (.strct (.mk (some name) false none flds nested), toks6)
        else if peekT toks3 = .IDENT then
          let alias_name := (peekTok toks3).value
          match expectT .SEMICOLON (toks3.drop 1) with
          | .error e => .error e
          | .ok (_, toks4) => .ok (.alias ⟨alias_name, name, true⟩, toks4)
        else .ok (.skipped, skipToSemicolon toks3)
      else .ok (.skipped, skipToSemicolon toks2)
    else
      match parseSimpleTypeRef toks1 with
      | .error e => .error e
      | .ok (type_name, toks2) =>
        if peekT toks2 = .IDENT then
          let alias_name := (peekTok toks2).value
          match expectT .SEMICOLON (toks2.drop 1) with
          | .error e => .error e
          | .ok (_, toks3) => .ok (.alias ⟨alias_name, type_name, false⟩, toks3)
        else .ok (.skipped, skipToSemicolon toks2)

/-- The top-level loop of `CppParser.parse`. -/
def parseCppTop (fuel : Nat) (toks : List CppToken) :
    Except CppParseErr CppHeader :=
  match fuel with
  | 0 => .error fuelErr
  | fuel + 1 =>
    if peekT toks = .EOF then .ok ⟨[], []⟩
    else if peekT toks = .TYPEDEF then
      match parseTypedef fuel toks with
      | .error e => .error e
      | .ok (res, toks1) =>
        match parseCppTop fuel toks1 with
        | .error e => .error e
        | .ok hdr =>
          match res with
          | .alias a => .ok ⟨a :: hdr.type_aliases, hdr.structs⟩
          | .strct s => .ok ⟨hdr.type_aliases, s :: hdr.structs⟩
          | .skipped => .ok hdr
    else if peekT toks = .STRUCT then
      match parseTopLevelStruct fuel toks with
      | .error e => .error e
      | .ok (res, toks1) =>
        match parseCppTop fuel toks1 with
        | .error e => .error e
        | .ok hdr =>
          match res with
          | some s => .ok ⟨hdr.type_aliases, s :: hdr.structs⟩
          | none => .ok hdr
    else
      match parseCppTop fuel (toks.drop 1) with
      | .error e => .error e
      | .ok hdr => .ok hdr

/-- `CppParser.parse` on a token stream (ample fuel: the Python loop
consumes at least one token per iteration / recursion level). -/
def parse_cpp (toks : List CppToken) : Except CppParseErr CppHeader :=
  parseCppTop (2 * toks.length + 4) toks

/-! `parser/cpp_transform.py`. -/

theorem dictGet?_mem_keys {α : Type} :
    ∀ {entries : List (String × α)} {key : String} {v : α},
    dictGet? entries key = some v → key ∈ entries.map Prod.fst
  | [], _, _, h => by simp [dictGet?] at h
  | (k, w) :: rest, key, v, h => by
    rw [dictGet?] at h
    match hr : dictGet? rest key with
    | some r =>
      exact List.mem_cons_of_mem _ (dictGet?_mem_keys hr)
    | none =>
      rw [hr] at h
      by_cases hk : k == key
      · have hkk : k = key := by simpa using hk
        simp [hkk]
      · rw [if_neg (by simpa using hk)] at h
        exact absurd h (by simp)

/-- The `while` loop of `cpp_transform._resolve_alias`: while the current
name is a dict key and has not been seen, record it and move to its alias;
`aliases[name]` is `(dictGet? aliases name).getD name` under the loop
condition. -/
def resolveAliasAux (aliases : List (String × String)) (seen : List String)
    (name : String) : String :=
  if h : (dictGet? aliases name).isSome ∧ name ∉ seen then
    resolveAliasAux aliases (name :: seen) ((dictGet? aliases name).getD name)
  else name
termination_by ((aliases.map Prod.fst).toFinset \ seen.toFinset).card
decreasing_by
  have hmem : name ∈ (aliases.map Prod.fst).toFinset \ seen.toFinset := by
    rw [Finset.mem_sdiff]
    obtain ⟨v, hv⟩ := Option.isSome_iff_exists.mp h.1
    exact ⟨List.mem_toFinset.mpr (dictGet?_mem_keys hv),
      fun hc => h.2 (List.mem_toFinset.mp hc)⟩
  apply Finset.card_lt_card
  constructor
  · intro a ha
    rw [Finset.mem_sdiff] at ha ⊢
    exact ⟨ha.1, fun hc => ha.2 (by rw [List.toFinset_cons]; exact Finset.mem_insert_of_mem hc)⟩
  · intro hsub
    have h2 := hsub hmem
    rw [Finset.mem_sdiff] at h2
    exact h2.2 (by rw [List.toFinset_cons]; exact Finset.mem_insert_self name seen.toFinset)

/-- The k-th name reached by chasing the alias chain from `name` (staying
put once the current name is no longer a key). -/
def aliasIter (aliases : List (String × String)) (name : String) : Nat → String
  | 0 => name
  | k + 1 =>
    (dictGet? aliases (aliasIter aliases name k)).getD (aliasIter aliases name k)

/-- `cpp_transform._resolve_alias`. -/
def resolve_alias (name : String) (aliases : List (String × String)) : String :=
  resolveAliasAux aliases [] name

/-- `cpp_transform._transform_field_decl`. -/
def transform_field_decl (node : CppFieldDecl) (aliases : List (String × String)) : Fld :=
  let type_name := resolve_alias node.type_name aliases
  if node.is_vector then
    .mk node.field_name (normalize node.field_name) type_name true false none
  else if node.is_char_array then
    .mk node.field_name (normalize node.field_name) "char" false false none
  else if node.is_array then
    .mk node.field_name (normalize node.field_name) type_name true false none
  else
    .mk node.field_name (normalize node.field_name) type_name false false none

/-- `node.field_name[0].upper() + node.field_name[1:]` (synthetic name for
an anonymous struct field; parsed field names are nonempty). -/
def capFirst (s : String) : String :=
  match s.data with
  | [] => ""
  | c :: cs => ⟨c.toUpper :: cs⟩

mutual

/-- The shared field-processing loop of `cpp_transform._transform_struct`
and `cpp_transform._transform_anonymous_struct_field`: a field declaration
is transformed in place, an anonymous struct field yields a field plus
synthetic messages. Returns (fields, anonymous-struct messages). -/
def transformFields (flds : List CppStructFld) (source_file : String)
    (aliases : List (String × String)) : List Fld × List Message :=
  match flds with
  | [] => ([], [])
  | .decl d :: rest =>
    let (fs, ms) := transformFields rest source_file aliases
    (transform_field_decl d aliases :: fs, ms)
  | .anon a :: rest =>
    let (f, synth) := transformAnonField a source_file aliases
    let (fs, ms) := transformFields rest source_file aliases
    (f :: fs, synth ++ ms)

/-- `cpp_transform._transform_anonymous_struct_field`. -/
def transformAnonField (node : CppAnonF) (source_file : String)
    (aliases : List (String × String)) : Fld × List Message :=
  match node with
  | .mk field_name flds =>
    let (inner_fields, deeper_anon) := transformFields flds source_file aliases
    let synthetic_name := capFirst field_name
    let synthetic_msg := Message.mk synthetic_name (normalize synthetic_name)
      inner_fields source_file
    (Fld.mk field_name (normalize field_name) synthetic_name false true none,
      synthetic_msg :: deeper_anon)

end

/-- The in-place nested-type linking at the end of
`cpp_transform._transform_struct`: a field whose type name is a key of the
sibling dict gets `is_nested = true` and the reference attached. -/
def linkStructFld (nestedEntries : List (String × Message)) (f : Fld) : Fld :=
  match dictGet? nestedEntries f.type_name with
  | some nt => Fld.mk f.original_name f.normalized_name f.type_name
      f.is_repeated true (some nt)
  | none => f

mutual

/-- `cpp_transform._transform_struct`. -/
def transform_struct : CppStruct → String → List (String × String) → List Message
  | .mk nm is_anon tdname flds nested, source_file, aliases =>
    match (if is_anon then tdname else nm) with
    | none => []
    | some sname =>
      let nested_messages := transformStructList nested source_file aliases
      let pr := transformFields flds source_file aliases
      let all_nested := nested_messages ++ pr.2
      let nestedEntries := all_nested.map fun m => (m.original_name, m)
      Message.mk sname (normalize sname) (pr.1.map (linkStructFld nestedEntries))
        source_file :: all_nested

/-- The named-nested-struct accumulation loop of `_transform_struct`. -/
def transformStructList : List CppStruct → String → List (String × String) → List Message
  | [], _, _ => []
  | s :: rest, source_file, aliases =>
    transform_struct s source_file aliases ++ transformStructList rest source_file aliases

end

/-- `cpp_transform.transform_cpp`. -/
def transform_cpp (ast : CppHeader) (source_file : String) : List Message :=
  let aliases := ast.type_aliases.map fun a => (a.new_name, a.existing_type)
  (ast.structs.map fun s => transform_struct s source_file aliases).flatten

/-- Parse a C++ token stream and transform it: the composition exercised
by `parse_cpp_header` (token-based pipeline). -/
def parse_and_transform_cpp (toks : List CppToken) (source_file : String) :
    Except CppParseErr (List Message) :=
  match parse_cpp toks with
  | .error e => .error e
  | .ok hdr => .ok (transform_cpp hdr source_file)

/-! Concrete example inputs used by witnesses and counterexamples. -/

/-- Token with irrelevant position, for concrete token streams. -/
def tok (ty : CppTokT) (v : String) : CppToken := ⟨ty, v, 0, 0⟩

/-- Tokens of `struct Foo;` at top level. -/
def fwdTopToks : List CppToken :=
  [tok .STRUCT "struct", tok .IDENT "Foo", tok .SEMICOLON ";"]

/-- Tokens of `struct Outer { struct Foo; };`. -/
def fwdNestedToks : List CppToken :=
  [tok .STRUCT "struct", tok .IDENT "Outer", tok .LBRACE "\x7b",
   tok .STRUCT "struct", tok .IDENT "Foo", tok .SEMICOLON ";",
   tok .RBRACE "\x7d", tok .SEMICOLON ";"]

def exDetailCpp : Message :=
  .mk "Detail" (normalize "Detail")
    [.mk "d" (normalize "d") "int" false false none] "o.h"

def exProtoDetailFld : Fld := .mk "detail" (normalize "detail") "Detail" false true none

def exProtoItemsFld : Fld := .mk "items" (normalize "items") "int32" true false none

def exProtoMissingFld : Fld :=
  .mk "missing_field" (normalize "missing_field") "int32" false false none

def exProto : Message :=
  .mk "Order" (normalize "Order")
    [exProtoDetailFld, exProtoItemsFld, exProtoMissingFld] "o.proto"

def exCppDetailFld : Fld := .mk "detail" (normalize "detail") "Detail" false false none

def exCppItemsFld : Fld := .mk "items" (normalize "items") "int" false false none

def exCppOrder : Message :=
  .mk "Order" (normalize "Order") [exCppDetailFld, exCppItemsFld] "o.h"

/-- A Rep* proto message carrying a msgHeader field plus one data field. -/
def exRepHeaderFld : Fld := .mk "msgHeader" (normalize "msgHeader") "msgHeader" false true none

def exRepDataFld : Fld := .mk "order_id" (normalize "order_id") "int32" false false none

def exRepProto : Message :=
  .mk "RepOrder" (normalize "RepOrder") [exRepHeaderFld, exRepDataFld] "r.proto"

def exMsgHeaderDef : Message :=
  .mk "msgHeader" (normalize "msgHeader")
    [.mk "retCode" (normalize "retCode") "int32" false false none,
     .mk "msgOwnId" (normalize "msgOwnId") "string" false false none] "r.proto"

def exRepCpp : Message :=
  .mk "RepOrder" (normalize "RepOrder")
    [.mk "orderId" (normalize "orderId") "int" false false none] "r.h"

/-- `exRepProto` as it stands after `strip_msg_header_fields` removed its
msgHeader field. -/
def exRepProtoStripped : Message :=
  .mk "RepOrder" (normalize "RepOrder") [exRepDataFld] "r.proto"

/-- The match the matcher produces for `exRepProtoStripped` vs `exRepCpp`. -/
def exRepOkMatch : MessageMatch :=
  ⟨exRepProtoStripped, exRepCpp,
    [⟨exRepDataFld, .mk "orderId" (normalize "orderId") "int" false false none, false⟩]⟩

theorem charToNat_ofNat_valid {n : Nat} (h : n.isValidChar) :
    (Char.ofNat n).toNat = n := by
  rw [Char.ofNat, dif_pos h]; rfl

theorem charToNat_inj {c d : Char} (h : c.toNat = d.toNat) : c = d := by
  have h2 := congrArg Char.ofNat h
  rwa [Char.ofNat_toNat, Char.ofNat_toNat] at h2

/-- Idempotence of ASCII uppercasing at the character level. -/
theorem charToUpper_toUpper (c : Char) : c.toUpper.toUpper = c.toUpper := by
  unfold Char.toUpper
  by_cases h : c.toNat ≥ 97 ∧ c.toNat ≤ 122
  · rw [if_pos h]
    have ht : (Char.ofNat (c.toNat - 32)).toNat = c.toNat - 32 :=
      charToNat_ofNat_valid (Or.inl (by omega))
    rw [if_neg (by rw [ht]; omega)]
  · rw [if_neg h, if_neg h]

/-- ASCII uppercasing never produces an underscore from a non-underscore. -/
theorem charToUpper_ne_underscore {c : Char} (h : c ≠ '_') : c.toUpper ≠ '_' := by
  unfold Char.toUpper
  by_cases hc : c.toNat ≥ 97 ∧ c.toNat ≤ 122
  · rw [if_pos hc]
    intro he
    have h2 := congrArg Char.toNat he
    rw [charToNat_ofNat_valid (Or.inl (by omega))] at h2
    have h3 : ('_').toNat = 95 := rfl
    rw [h3] at h2
    omega
  · rw [if_neg hc]; exact h

/-- Characters equal after ASCII lowercasing are equal after ASCII
uppercasing. -/
theorem charToUpper_eq_of_toLower_eq {c d : Char} (h : c.toLower = d.toLower) :
    c.toUpper = d.toUpper := by
  unfold Char.toLower at h
  unfold Char.toUpper
  by_cases hc : c.toNat ≥ 65 ∧ c.toNat ≤ 90
  · by_cases hd : d.toNat ≥ 65 ∧ d.toNat ≤ 90
    · rw [if_pos hc, if_pos hd] at h
      have h2 := congrArg Char.toNat h
      rw [charToNat_ofNat_valid (Or.inl (by omega)),
        charToNat_ofNat_valid (Or.inl (by omega))] at h2
      rw [charToNat_inj (show c.toNat = d.toNat by omega)]
    · rw [if_pos hc, if_neg hd] at h
      have h2 := congrArg Char.toNat h
      rw [charToNat_ofNat_valid (Or.inl (by omega))] at h2
      rw [if_neg (by omega), if_pos (by omega), ← h2]
      have h3 : c.toNat + 32 - 32 = c.toNat := by omega
      rw [h3, Char.ofNat_toNat]
  · by_cases hd : d.toNat ≥ 65 ∧ d.toNat ≤ 90
    · rw [if_neg hc, if_pos hd] at h
      have h2 := congrArg Char.toNat h
      rw [charToNat_ofNat_valid (Or.inl (by omega))] at h2
      rw [if_pos (by omega), if_neg (by omega), h2]
      have h3 : d.toNat + 32 - 32 = d.toNat := by omega
      rw [h3, Char.ofNat_toNat]
    · rw [if_neg hc, if_neg hd] at h
      rw [h]

theorem map_toUpper_eq_of_map_toLower_eq : ∀ (l1 l2 : List Char),
    l1.map Char.toLower = l2.map Char.toLower →
    l1.map Char.toUpper = l2.map Char.toUpper
  | [], [], _ => rfl
  | a :: t1, b :: t2, h => by
    simp only [List.map_cons, List.cons.injEq] at h ⊢
    exact ⟨charToUpper_eq_of_toLower_eq h.1,
      map_toUpper_eq_of_map_toLower_eq t1 t2 h.2⟩
  | [], _ :: _, h => by simp at h
  | _ :: _, [], h => by simp at h

/-- C8: `normalize(name)` equals `uppercase(remove_all_underscores(name))`;
it is idempotent; names that agree after underscore removal and ASCII case
folding normalize identically; and `order_id`, `orderId`, `ORDER_ID` all
normalize to `ORDERID`. -/
theorem claim_C8_normalize_algebra :
    (∀ name : String, normalize name = asciiUpper (removeUnderscores name)) ∧
    (∀ name : String, normalize (normalize name) = normalize name) ∧
    (∀ n1 n2 : String,
      asciiLower (removeUnderscores n1) = asciiLower (removeUnderscores n2) →
      normalize n1 = normalize n2) ∧
    (normalize "order_id" = "ORDERID" ∧ normalize "orderId" = "ORDERID" ∧
      normalize "ORDER_ID" = "ORDERID") := by
  refine ⟨fun _ => rfl, fun name => ?_, fun n1 n2 h => ?_, by decide, by decide, by decide⟩
  · show (⟨(((name.data.filter _).map Char.toUpper).filter _).map Char.toUpper⟩ : String) = _
    have hfil : ((name.data.filter (fun c => c != '_')).map Char.toUpper).filter
        (fun c => c != '_') = (name.data.filter (fun c => c != '_')).map Char.toUpper := by
      apply List.filter_eq_self.mpr
      intro a ha
      have ⟨b, hb, hba⟩ := List.mem_map.mp ha
      have hbne : b ≠ '_' := by
        have := List.of_mem_filter hb
        simpa using this
      simpa [← hba] using charToUpper_ne_underscore hbne
    rw [hfil, List.map_map]
    exact congrArg String.mk (List.map_congr_left (fun a _ => charToUpper_toUpper a))
  · have h2 : (n1.data.filter (fun c => c != '_')).map Char.toLower =
        (n2.data.filter (fun c => c != '_')).map Char.toLower := by
      have := congrArg String.data h
      simpa [asciiLower, removeUnderscores] using this
    exact congrArg String.mk
      (map_toUpper_eq_of_map_toLower_eq _ _ h2)

/-- Concrete application of the case-folding clause of C8. -/
theorem claim_C8_normalize_algebra_witness :
    normalize "order_id" = normalize "OrderId" :=
  claim_C8_normalize_algebra.2.2.1 "order_id" "OrderId" (by decide)

/-! Matcher lemmas: the store mutations never change any name, so field
and message lookups and the MatchError text are stable across them. -/

theorem lastIdxWhere_map {α β : Type} (p : β → Bool) (f : α → β) :
    ∀ l : List α, lastIdxWhere p (l.map f) = lastIdxWhere (fun a => p (f a)) l
  | [] => rfl
  | a :: rest => by
    rw [List.map_cons, lastIdxWhere, lastIdxWhere, lastIdxWhere_map p f rest]

theorem map_getD {α β : Type} (f : α → β) (d : α) :
    ∀ (l : List α) (i : Nat), (l.map f).getD i (f d) = f (l.getD i d)
  | [], _ => rfl
  | _ :: _, 0 => rfl
  | _ :: rest, i + 1 => map_getD f d rest i

theorem listModify_map {α β : Type} {hF : α → β} {g : α → α}
    (hpres : ∀ a, hF (g a) = hF a) :
    ∀ (l : List α) (i : Nat), (listModify l i g).map hF = l.map hF
  | [], _ => rfl
  | a :: rest, 0 => by rw [listModify, List.map_cons, List.map_cons, hpres]
  | a :: rest, i + 1 => by
    rw [listModify, List.map_cons, List.map_cons, listModify_map hpres rest i]

theorem msgSkel_withFields_modify {g : Fld → Fld}
    (hg : ∀ f, fldSkel (g f) = fldSkel f) (m : Message) (fj : Nat) :
    msgSkel (m.withFields (listModify m.fields fj g)) = msgSkel m := by
  show (_, _, (listModify m.fields fj g).map fldSkel) = _
  rw [listModify_map hg]
  rfl

theorem storeModifyFld_skel {g : Fld → Fld} (hg : ∀ f, fldSkel (g f) = fldSkel f)
    (store : List Message) (ci fj : Nat) :
    (storeModifyFld store ci fj g).map msgSkel = store.map msgSkel := by
  exact listModify_map (fun m => msgSkel_withFields_modify hg m fj) store ci

theorem stepStore_skel (cppIdx : String → Option Nat) (ci fj : Nat) (pf : Fld)
    (store : List Message) :
    (stepStore cppIdx ci fj pf store).map msgSkel = store.map msgSkel := by
  unfold stepStore
  have h1 : ∀ s' : List Message, s'.map msgSkel = store.map msgSkel →
      (if pf.is_repeated then storeModifyFld s' ci fj Fld.setRepeated else s').map msgSkel =
        store.map msgSkel := by
    intro s' hs'
    by_cases hr : pf.is_repeated
    · rw [if_pos hr, storeModifyFld_skel (g := Fld.setRepeated) (fun f => rfl), hs']
    · rw [if_neg hr, hs']
  apply h1
  by_cases hn : pf.is_nested
  · rw [if_pos hn]
    cases cppIdx (match pf.nested_type with
      | some nt => nt.normalized_name
      | none => normalize pf.type_name) with
    | none => rfl
    | some mi =>
      exact storeModifyFld_skel
        (g := fun f => f.setNestedCpp (storeGetMsg store mi)) (fun f => rfl) store ci fj
  · rw [if_neg hn]

theorem msgSkel_parts {m1 m2 : Message} (h : msgSkel m1 = msgSkel m2) :
    m1.original_name = m2.original_name ∧ m1.normalized_name = m2.normalized_name ∧
      m1.fields.map fldSkel = m2.fields.map fldSkel := by
  unfold msgSkel at h
  simpa [Prod.ext_iff] using h

theorem storeGetMsg_skel {s1 s2 : List Message}
    (h : s1.map msgSkel = s2.map msgSkel) (ci : Nat) :
    msgSkel (storeGetMsg s1 ci) = msgSkel (storeGetMsg s2 ci) := by
  unfold storeGetMsg
  rw [← map_getD msgSkel dummyMessage s1 ci, ← map_getD msgSkel dummyMessage s2 ci, h]

theorem fldLookup_skel {m1 m2 : Message} (h : msgSkel m1 = msgSkel m2) (k : String) :
    fldLookup m1 k = fldLookup m2 k := by
  unfold fldLookup
  have hmap := (msgSkel_parts h).2.2
  have e : ∀ m : Message, lastIdxWhere (fun f : Fld => f.normalized_name == k) m.fields =
      lastIdxWhere (fun s : String × String => s.2 == k) (m.fields.map fldSkel) := by
    intro m
    rw [lastIdxWhere_map]
    rfl
  rw [e, e, hmap]

theorem matchErrorMessage_skel {m1 m2 : Message} (h : msgSkel m1 = msgSkel m2)
    (pf : Fld) (pm : Message) :
    matchErrorMessage pf pm m1 = matchErrorMessage pf pm m2 := by
  obtain ⟨ho, -, hmap⟩ := msgSkel_parts h
  unfold matchErrorMessage
  rw [ho]
  have e : ∀ m : Message, m.fields.map Fld.original_name =
      (m.fields.map fldSkel).map Prod.fst := by
    intro m
    rw [List.map_map]
    rfl
  rw [e, e, hmap]

theorem matchFieldsGo_skel (cppIdx : String → Option Nat) (pm : Message) (ci : Nat) :
    ∀ (fields : List Fld) (store : List Message),
    ((matchFieldsGo cppIdx pm ci fields store).2).map msgSkel = store.map msgSkel := by
  intro fields
  induction fields with
  | nil => intro store; rfl
  | cons pf rest ih =>
    intro store
    rw [matchFieldsGo]
    cases hlk : fldLookup (storeGetMsg store ci) pf.normalized_name with
    | none => simp only [hlk]
    | some fj =>
      simp only [hlk]
      rcases hrec : matchFieldsGo cppIdx pm ci rest (stepStore cppIdx ci fj pf store)
        with ⟨r, st3⟩
      have ihr := ih (stepStore cppIdx ci fj pf store)
      rw [hrec] at ihr
      have hst : st3.map msgSkel = store.map msgSkel := by
        rw [ihr, stepStore_skel]
      cases r with
      | ok maps => simpa [hrec] using hst
      | error e => simpa [hrec] using hst

theorem matchFieldsGo_ok_mappings (cppIdx : String → Option Nat) (pm : Message) (ci : Nat) :
    ∀ (fields : List Fld) (store : List Message) (maps : List FieldMapping)
      (store' : List Message),
    matchFieldsGo cppIdx pm ci fields store = (.ok maps, store') →
    maps.map FieldMapping.proto_field = fields := by
  intro fields
  induction fields with
  | nil =>
    intro store maps store' h
    rw [matchFieldsGo] at h
    injection h with h1 h2
    injection h1 with h1
    rw [← h1]
    rfl
  | cons pf rest ih =>
    intro store maps store' h
    rw [matchFieldsGo] at h
    cases hlk : fldLookup (storeGetMsg store ci) pf.normalized_name with
    | none =>
      simp only [hlk] at h
      exact absurd h (by simp)
    | some fj =>
      simp only [hlk] at h
      rcases hrec : matchFieldsGo cppIdx pm ci rest (stepStore cppIdx ci fj pf store)
        with ⟨r, st3⟩
      rw [hrec] at h
      cases r with
      | error e => exact absurd h (by simp)
      | ok maps' =>
        simp only at h
        injection h with h1 h2
        injection h1 with h1
        rw [← h1, List.map_cons, ih _ _ _ hrec]

theorem matchFieldsGo_error_elim (cppIdx : String → Option Nat) (pm : Message) (ci : Nat) :
    ∀ (fields : List Fld) (store : List Message) (e : String) (store' : List Message),
    matchFieldsGo cppIdx pm ci fields store = (.error e, store') →
    ∃ pf ∈ fields, fldLookup (storeGetMsg store ci) pf.normalized_name = none ∧
      e = matchErrorMessage pf pm (storeGetMsg store ci) := by
  intro fields
  induction fields with
  | nil =>
    intro store e store' h
    rw [matchFieldsGo] at h
    exact absurd h (by simp)
  | cons pf rest ih =>
    intro store e store' h
    rw [matchFieldsGo] at h
    cases hlk : fldLookup (storeGetMsg store ci) pf.normalized_name with
    | none =>
      simp only [hlk] at h
      injection h with h1 h2
      injection h1 with h1
      exact ⟨pf, List.mem_cons_self pf rest, hlk, h1.symm⟩
    | some fj =>
      simp only [hlk] at h
      rcases hrec : matchFieldsGo cppIdx pm ci rest (stepStore cppIdx ci fj pf store)
        with ⟨r, st3⟩
      rw [hrec] at h
      cases r with
      | ok maps => exact absurd h (by simp)
      | error e2 =>
        simp only at h
        injection h with h1 h2
        injection h1 with h1
        obtain ⟨pf2, hpf2, hnone, he⟩ := ih _ _ _ hrec
        have hsk : msgSkel (storeGetMsg (stepStore cppIdx ci fj pf store) ci) =
            msgSkel (storeGetMsg store ci) :=
          storeGetMsg_skel (stepStore_skel cppIdx ci fj pf store) ci
        refine ⟨pf2, List.mem_cons_of_mem pf hpf2, ?_, ?_⟩
        · rw [← fldLookup_skel hsk, hnone]
        · rw [← h1, he, matchErrorMessage_skel hsk]

theorem matchFieldsGo_error_of_exists (cppIdx : String → Option Nat) (pm : Message)
    (ci : Nat) :
    ∀ (fields : List Fld) (store : List Message),
    (∃ pf ∈ fields, fldLookup (storeGetMsg store ci) pf.normalized_name = none) →
    ∃ e store', matchFieldsGo cppIdx pm ci fields store = (.error e, store') := by
  intro fields
  induction fields with
  | nil =>
    intro store h
    obtain ⟨pf, hpf, -⟩ := h
    exact absurd hpf (by simp)
  | cons pf rest ih =>
    intro store h
    rw [matchFieldsGo]
    cases hlk : fldLookup (storeGetMsg store ci) pf.normalized_name with
    | none => simp only [hlk]; exact ⟨_, _, rfl⟩
    | some fj =>
      simp only [hlk]
      obtain ⟨pf2, hpf2, hnone⟩ := h
      have hpf2r : pf2 ∈ rest := by
        rcases List.mem_cons.mp hpf2 with h2 | h2
        · rw [h2] at hnone
          rw [hnone] at hlk
          exact absurd hlk (by simp)
        · exact h2
      have hsk : msgSkel (storeGetMsg (stepStore cppIdx ci fj pf store) ci) =
          msgSkel (storeGetMsg store ci) :=
        storeGetMsg_skel (stepStore_skel cppIdx ci fj pf store) ci
      obtain ⟨e, store', hrec⟩ := ih (stepStore cppIdx ci fj pf store)
        ⟨pf2, hpf2r, by rw [fldLookup_skel hsk, hnone]⟩
      rw [hrec]
      exact ⟨e, store', by simp⟩

theorem matchMessagesGo_error (cppIdx : String → Option Nat) :
    ∀ (P store : List Message),
    (∃ pm ∈ P, ∃ ci, cppIdx pm.normalized_name = some ci ∧
      ∃ pf ∈ pm.fields, fldLookup (storeGetMsg store ci) pf.normalized_name = none) →
    ∃ e store', matchMessagesGo cppIdx P store = (.error e, store') ∧
      ∃ pm ∈ P, ∃ ci, cppIdx pm.normalized_name = some ci ∧
        ∃ pf ∈ pm.fields, fldLookup (storeGetMsg store ci) pf.normalized_name = none ∧
          e = matchErrorMessage pf pm (storeGetMsg store ci) := by
  intro P
  induction P with
  | nil =>
    intro store h
    obtain ⟨pm, hpm, -⟩ := h
    exact absurd hpm (by simp)
  | cons pm rest ih =>
    intro store h
    rw [matchMessagesGo]
    cases hc : cppIdx pm.normalized_name with
    | none =>
      obtain ⟨pm2, hpm2, ci, hci, hrest⟩ := h
      have hpm2r : pm2 ∈ rest := by
        rcases List.mem_cons.mp hpm2 with h2 | h2
        · rw [h2] at hci
          rw [hci] at hc
          exact absurd hc (by simp)
        · exact h2
      obtain ⟨e, store', hrec, pm3, hpm3, props⟩ := ih store ⟨pm2, hpm2r, ci, hci, hrest⟩
      exact ⟨e, store', hrec, pm3, List.mem_cons_of_mem _ hpm3, props⟩
    | some ci =>
      simp only [hc]
      rcases hmf : matchFieldsGo cppIdx pm ci pm.fields store with ⟨r1, store1⟩
      cases r1 with
      | error e =>
        obtain ⟨pf, hpf, hnone, he⟩ :=
          matchFieldsGo_error_elim cppIdx pm ci pm.fields store e store1 hmf
        refine ⟨e, store1, ?_, pm, List.mem_cons_self pm rest, ci, hc, pf, hpf, hnone, he⟩
        rfl
      | ok maps =>
        have hno : ¬ ∃ pf ∈ pm.fields,
            fldLookup (storeGetMsg store ci) pf.normalized_name = none := by
          intro hex
          obtain ⟨e, store', hrec⟩ :=
            matchFieldsGo_error_of_exists cppIdx pm ci pm.fields store hex
          rw [hmf] at hrec
          exact absurd hrec (by simp)
        obtain ⟨pm2, hpm2, ci2, hci2, pf2, hpf2, hnone2⟩ := h
        have hpm2r : pm2 ∈ rest := by
          rcases List.mem_cons.mp hpm2 with h2 | h2
          · subst h2
            rw [hci2] at hc
            injection hc with hc
            rw [hc] at hnone2
            exact absurd ⟨pf2, hpf2, hnone2⟩ hno
          · exact h2
        have hskel : store1.map msgSkel = store.map msgSkel := by
          have h3 := matchFieldsGo_skel cppIdx pm ci pm.fields store
          rw [hmf] at h3
          exact h3
        have hg2 := storeGetMsg_skel hskel ci2
        obtain ⟨e, store2, hrec, pm3, hpm3, ci3, hci3, pf3, hpf3, hnone3, he3⟩ :=
          ih store1 ⟨pm2, hpm2r, ci2, hci2, pf2, hpf2, by rw [fldLookup_skel hg2, hnone2]⟩
        have hg3 := storeGetMsg_skel hskel ci3
        refine ⟨e, store2, ?_, pm3, List.mem_cons_of_mem _ hpm3, ci3, hci3, pf3, hpf3, ?_, ?_⟩
        · simp only [hrec]
        · rw [← fldLookup_skel hg3, hnone3]
        · rw [he3, matchErrorMessage_skel hg3]

theorem matchMessagesGo_skip (cppIdx : String → Option Nat) (m : Message)
    (hm : cppIdx m.normalized_name = none) :
    ∀ (pre : List Message) (post store : List Message),
    matchMessagesGo cppIdx (pre ++ m :: post) store =
      matchMessagesGo cppIdx (pre ++ post) store := by
  intro pre
  induction pre with
  | nil =>
    intro post store
    rw [List.nil_append, List.nil_append, matchMessagesGo]
    simp only [hm]
  | cons p pre ih =>
    intro post store
    rw [List.cons_append, List.cons_append, matchMessagesGo, matchMessagesGo]
    cases hc : cppIdx p.normalized_name with
    | none =>
      simp only [hc]
      exact ih post store
    | some ci =>
      simp only [hc]
      rcases hmf : matchFieldsGo cppIdx p ci p.fields store with ⟨r1, store1⟩
      cases r1 with
      | error e => rfl
      | ok maps =>
        simp only
        rw [ih post store1]

theorem matchMessagesGo_ok_order (cppIdx : String → Option Nat) :
    ∀ (P store : List Message) (ms : List MessageMatch) (store' : List Message),
    matchMessagesGo cppIdx P store = (.ok ms, store') →
    ms.map MessageMatch.proto_message =
      P.filter (fun pm => (cppIdx pm.normalized_name).isSome) := by
  intro P
  induction P with
  | nil =>
    intro store ms store' h
    rw [matchMessagesGo] at h
    injection h with h1 h2
    injection h1 with h1
    rw [← h1]
    rfl
  | cons pm rest ih =>
    intro store ms store' h
    rw [matchMessagesGo] at h
    cases hc : cppIdx pm.normalized_name with
    | none =>
      simp only [hc] at h
      rw [List.filter_cons_of_neg (by simp [hc])]
      exact ih store ms store' h
    | some ci =>
      simp only [hc] at h
      rcases hmf : matchFieldsGo cppIdx pm ci pm.fields store with ⟨r1, store1⟩
      rw [hmf] at h
      cases r1 with
      | error e => exact absurd h (by simp)
      | ok maps =>
        simp only at h
        rcases hrec : matchMessagesGo cppIdx rest store1 with ⟨r2, store2⟩
        rw [hrec] at h
        cases r2 with
        | error e => exact absurd h (by simp)
        | ok ms2 =>
          simp only at h
          injection h with h1 h2
          injection h1 with h1
          rw [← h1, List.filter_cons_of_pos (by simp [hc]), List.map_cons,
            ih store1 ms2 store2 hrec]

theorem matchMessagesGo_ok_mapfields (cppIdx : String → Option Nat) :
    ∀ (P store : List Message) (ms : List MessageMatch) (store' : List Message),
    matchMessagesGo cppIdx P store = (.ok ms, store') →
    ∀ mt ∈ ms, mt.field_mappings.map FieldMapping.proto_field = mt.proto_message.fields := by
  intro P
  induction P with
  | nil =>
    intro store ms store' h
    rw [matchMessagesGo] at h
    injection h with h1 h2
    injection h1 with h1
    rw [← h1]
    intro mt hmt
    exact absurd hmt (by simp)
  | cons pm rest ih =>
    intro store ms store' h
    rw [matchMessagesGo] at h
    cases hc : cppIdx pm.normalized_name with
    | none =>
      simp only [hc] at h
      exact ih store ms store' h
    | some ci =>
      simp only [hc] at h
      rcases hmf : matchFieldsGo cppIdx pm ci pm.fields store with ⟨r1, store1⟩
      rw [hmf] at h
      cases r1 with
      | error e => exact absurd h (by simp)
      | ok maps =>
        simp only at h
        rcases hrec : matchMessagesGo cppIdx rest store1 with ⟨r2, store2⟩
        rw [hrec] at h
        cases r2 with
        | error e => exact absurd h (by simp)
        | ok ms2 =>
          simp only at h
          injection h with h1 h2
          injection h1 with h1
          rw [← h1]
          intro mt hmt
          rcases List.mem_cons.mp hmt with h3 | h3
          · rw [h3]
            exact matchFieldsGo_ok_mappings cppIdx pm ci pm.fields store maps store1 hmf
          · exact ih store1 ms2 store2 hrec mt h3

/-- C1: if some IDL entity has a struct counterpart by normalized name but
one of its fields has no struct field with the same normalized name, then
`match_messages` raises a MatchError whose message is the full diagnostic
(unmatched field's original and normalized name, the containing IDL
entity, the target struct entity, and the struct entity's field-name
list), and no match list is returned: the whole pass aborts. -/
theorem claim_C1_unmatched_field_fail_fast (P C : List Message)
    (h : ∃ pm ∈ P, ∃ ci, cppIdxOf C pm.normalized_name = some ci ∧
      ∃ pf ∈ pm.fields, fldLookup (storeGetMsg C ci) pf.normalized_name = none) :
    ∃ e, (match_messages P C).1 = .error e ∧
      (∀ ms : List MessageMatch, (match_messages P C).1 ≠ .ok ms) ∧
      ∃ pm ∈ P, ∃ ci, cppIdxOf C pm.normalized_name = some ci ∧
        ∃ pf ∈ pm.fields, fldLookup (storeGetMsg C ci) pf.normalized_name = none ∧
          e = matchErrorMessage pf pm (storeGetMsg C ci) := by
  obtain ⟨e, store', hrun, props⟩ := matchMessagesGo_error (cppIdxOf C) P C h
  refine ⟨e, ?_, ?_, props⟩
  · show (matchMessagesGo (cppIdxOf C) P C).1 = _
    rw [hrun]
  · intro ms hok
    have h2 : (matchMessagesGo (cppIdxOf C) P C).1 = .ok ms := hok
    rw [hrun] at h2
    exact absurd h2 (by simp)

/-- Application of C1 to a concrete entity pair with an unmatched field. -/
theorem claim_C1_unmatched_field_fail_fast_witness :
    (∃ pm ∈ [exProto], ∃ ci,
      cppIdxOf [exCppOrder, exDetailCpp] pm.normalized_name = some ci ∧
      ∃ pf ∈ pm.fields,
        fldLookup (storeGetMsg [exCppOrder, exDetailCpp] ci) pf.normalized_name = none) ∧
    ∃ e, (match_messages [exProto] [exCppOrder, exDetailCpp]).1 = .error e := by
  have hyp : ∃ pm ∈ [exProto], ∃ ci,
      cppIdxOf [exCppOrder, exDetailCpp] pm.normalized_name = some ci ∧
      ∃ pf ∈ pm.fields,
        fldLookup (storeGetMsg [exCppOrder, exDetailCpp] ci) pf.normalized_name = none :=
    ⟨exProto, by simp, 0, rfl, exProtoMissingFld,
      by simp [exProto, Message.fields], rfl⟩
  obtain ⟨e, he, -⟩ :=
    claim_C1_unmatched_field_fail_fast [exProto] [exCppOrder, exDetailCpp] hyp
  exact ⟨hyp, e, he⟩

/-- C2: an IDL entity with no struct counterpart is silently skipped — it
produces no match and no error (removing it from anywhere in the input
changes nothing), and on success the match list lists exactly the IDL
entities with a counterpart, in IDL input order. -/
theorem claim_C2_unmatched_entity_skipped :
    (∀ (pre post C : List Message) (m : Message),
      cppIdxOf C m.normalized_name = none →
      match_messages (pre ++ m :: post) C = match_messages (pre ++ post) C) ∧
    (∀ (P C : List Message) (ms : List MessageMatch) (store' : List Message),
      match_messages P C = (.ok ms, store') →
      ms.map MessageMatch.proto_message =
        P.filter (fun pm => (cppIdxOf C pm.normalized_name).isSome)) := by
  constructor
  · intro pre post C m hm
    exact matchMessagesGo_skip (cppIdxOf C) m hm pre post C
  · intro P C ms store' h
    exact matchMessagesGo_ok_order (cppIdxOf C) P C ms store' h

/-- Application of C2 to a concrete unmatched entity. -/
theorem claim_C2_unmatched_entity_skipped_witness :
    (cppIdxOf [exCppOrder] exMsgHeaderDef.normalized_name = none ∧
      match_messages ([] ++ exMsgHeaderDef :: []) [exCppOrder] =
        match_messages ([] ++ []) [exCppOrder]) ∧
    (match_messages [exMsgHeaderDef] [exCppOrder] = (.ok [], [exCppOrder]) ∧
      ([] : List MessageMatch).map MessageMatch.proto_message =
        [exMsgHeaderDef].filter
          (fun pm => (cppIdxOf [exCppOrder] pm.normalized_name).isSome)) :=
  ⟨⟨rfl, claim_C2_unmatched_entity_skipped.1 [] [] [exCppOrder] exMsgHeaderDef rfl⟩,
    rfl, claim_C2_unmatched_entity_skipped.2 [exMsgHeaderDef] [exCppOrder] [] [exCppOrder] rfl⟩

/-- C10: `match_messages` mutates its `cpp_messages` argument as pairing
proceeds, not transactionally: on this input the call errors (no match
list), yet the struct fields paired before the failing field keep their
widened `is_repeated` flag and the attached `is_nested`/`nested_type`. -/
theorem claim_C10_mutation_not_transactional :
    (∃ e, (match_messages [exProto] [exCppOrder, exDetailCpp]).1 = .error e) ∧
    (match_messages [exProto] [exCppOrder, exDetailCpp]).2 =
      [Message.mk "Order" (normalize "Order")
        [Fld.mk "detail" (normalize "detail") "Detail" false true (some exDetailCpp),
         Fld.mk "items" (normalize "items") "int" true false none] "o.h",
       exDetailCpp] ∧
    exCppDetailFld.is_nested = false ∧ exCppDetailFld.nested_type = none ∧
    exCppItemsFld.is_repeated = false :=
  ⟨⟨_, rfl⟩, rfl, rfl, rfl, rfl⟩

/-- C3 counterexample: run the real pipeline (strip the msgHeader field,
match, inject the synthetic header mapping): the affected match ends with
2 field mappings but its IDL entity has 1 field, so the claimed equality
fails after the post-processor. -/
theorem claim_C3_field_count_counterexample :
    ∃ mt0, (match_messages (remove_msg_header_message
        (strip_msg_header_fields [exRepProto, exMsgHeaderDef]).1) [exRepCpp]).1 =
      .ok [mt0] ∧
    (inject_header_field_mappings [mt0]
        (strip_msg_header_fields [exRepProto, exMsgHeaderDef]).2
        (resolve_msg_header_definition
          (strip_msg_header_fields [exRepProto, exMsgHeaderDef]).1)).map
      (fun mt => (mt.field_mappings.length, mt.proto_message.fields.length)) =
      [(2, 1)] :=
  ⟨exRepOkMatch, rfl, rfl⟩

/-- C3 (amended): for every EntityMatch produced by `match_messages`, the
field mappings list the IDL entity's fields exactly, in order (so the
counts agree and extra struct fields are ignored); the reply-envelope
post-processor keeps unaffected matches unchanged, but a match that
receives the synthetic header mapping ends with one mapping more than its
(stripped) IDL entity has fields. -/
theorem claim_C3_field_count :
    (∀ (P C : List Message) (ms : List MessageMatch) (store' : List Message),
      match_messages P C = (.ok ms, store') →
      ∀ mt ∈ ms, mt.field_mappings.map FieldMapping.proto_field = mt.proto_message.fields ∧
        mt.field_mappings.length = mt.proto_message.fields.length) ∧
    (∀ (stripped : List (String × Fld)) (d : Option Message) (mt : MessageMatch),
      (dictGet? stripped mt.proto_message.original_name = none →
        injectHeaderOne stripped d mt = mt) ∧
      (∀ hf, dictGet? stripped mt.proto_message.original_name = some hf →
        (injectHeaderOne stripped d mt).proto_message = mt.proto_message ∧
        (injectHeaderOne stripped d mt).field_mappings.length =
          mt.field_mappings.length + 1) ∧
      inject_header_field_mappings [mt] stripped d = [injectHeaderOne stripped d mt]) := by
  constructor
  · intro P C ms store' h mt hmt
    have h1 := matchMessagesGo_ok_mapfields (cppIdxOf C) P C ms store' h mt hmt
    refine ⟨h1, ?_⟩
    rw [← h1, List.length_map]
  · intro stripped d mt
    refine ⟨?_, ?_, rfl⟩
    · intro hn
      unfold injectHeaderOne
      rw [hn]
    · intro hf hs
      unfold injectHeaderOne
      rw [hs]
      exact ⟨rfl, rfl⟩

/-- Application of (amended) C3 at a concrete match, before and after
injection. -/
theorem claim_C3_field_count_witness :
    (match_messages [exRepProtoStripped] [exRepCpp] = (.ok [exRepOkMatch], [exRepCpp]) ∧
      exRepOkMatch.field_mappings.length = exRepOkMatch.proto_message.fields.length) ∧
    (dictGet? [("RepOrder", exRepHeaderFld)] exRepOkMatch.proto_message.original_name =
        some exRepHeaderFld ∧
      (injectHeaderOne [("RepOrder", exRepHeaderFld)] (some exMsgHeaderDef)
          exRepOkMatch).field_mappings.length =
        exRepOkMatch.field_mappings.length + 1) := by
  refine ⟨⟨rfl, ?_⟩, rfl, ?_⟩
  · exact (claim_C3_field_count.1 [exRepProtoStripped] [exRepCpp] [exRepOkMatch]
      [exRepCpp] rfl exRepOkMatch (by simp)).2
  · exact ((claim_C3_field_count.2 [("RepOrder", exRepHeaderFld)]
      (some exMsgHeaderDef) exRepOkMatch).2.1 exRepHeaderFld rfl).2

theorem linkNestedType_original_name (f : Fld) (d : Option Message) :
    (linkNestedType f d).original_name = f.original_name := by
  unfold linkNestedType
  cases f.nested_type <;> cases d <;> rfl

/-- Every field recorded by `strip_msg_header_fields` is a nested field of
the msgHeader envelope type (it was found by `find_msg_header_field`). -/
theorem strip_msg_header_fields_entry :
    ∀ (msgs : List Message) (nm : String) (hf : Fld),
    dictGet? (strip_msg_header_fields msgs).2 nm = some hf →
    hf.is_nested = true ∧ normalize hf.type_name = normalize MSG_HEADER_TYPE_NAME := by
  intro msgs
  induction msgs with
  | nil =>
    intro nm hf h
    simp [strip_msg_header_fields, dictGet?] at h
  | cons msg rest ih =>
    intro nm hf h
    rw [strip_msg_header_fields] at h
    by_cases hrep : is_rep_message msg
    · simp only [hrep, if_true] at h
      cases hfind : find_msg_header_field msg with
      | none =>
        rw [hfind] at h
        exact ih nm hf h
      | some fld =>
        rw [hfind] at h
        simp only [dictGet?] at h
        cases hd : dictGet? (strip_msg_header_fields rest).2 nm with
        | some r =>
          rw [hd] at h
          injection h with h
          apply ih nm hf
          rw [← h]
          exact hd
        | none =>
          rw [hd] at h
          by_cases hk : (msg.original_name == nm : Bool)
          · rw [if_pos hk] at h
            injection h with h
            have hp := List.find?_some hfind
            rw [← h]
            have hp2 := Bool.and_eq_true_iff.mp hp
            exact ⟨hp2.1, by simpa using hp2.2⟩
          · rw [if_neg hk] at h
            exact absurd h (by simp)
    · simp only [hrep, if_false] at h
      exact ih nm hf h

/-- C4: for every match whose IDL entity had a msgHeader field removed
before matching, the post-processor prepends exactly one synthetic
FieldMapping flagged `is_reply_header`, whose struct-side field is typed
`WebServiceReplyHeader`, nested, non-repeated, and named from the removed
field's original name (snake_case converted to camelCase when it contains
an underscore); the removed field's `nested_type` is pointed at the
resolved envelope definition when it was null; matches with no removed
field are left unchanged. -/
theorem claim_C4_reply_header_injection :
    (∀ (ms : List MessageMatch) (stripped : List (String × Fld)) (d : Option Message),
      inject_header_field_mappings ms stripped d = ms.map (injectHeaderOne stripped d)) ∧
    (∀ (stripped : List (String × Fld)) (d : Option Message) (mt : MessageMatch),
      dictGet? stripped mt.proto_message.original_name = none →
      injectHeaderOne stripped d mt = mt) ∧
    (∀ (stripped : List (String × Fld)) (d : Message) (mt : MessageMatch) (hf : Fld),
      dictGet? stripped mt.proto_message.original_name = some hf →
      injectHeaderOne stripped (some d) mt =
        { mt with field_mappings :=
            ⟨linkNestedType hf (some d),
              syntheticHeaderFld (linkNestedType hf (some d)), true⟩ ::
              mt.field_mappings } ∧
      (syntheticHeaderFld (linkNestedType hf (some d))).type_name =
        WEB_SERVICE_REPLY_HEADER_CLASS ∧
      (syntheticHeaderFld (linkNestedType hf (some d))).is_nested = true ∧
      (syntheticHeaderFld (linkNestedType hf (some d))).is_repeated = false ∧
      (syntheticHeaderFld (linkNestedType hf (some d))).original_name =
        (if hf.original_name.contains '_' then snakeToCamel hf.original_name
          else hf.original_name) ∧
      (hf.nested_type = none → (linkNestedType hf (some d)).nested_type = some d) ∧
      (∀ x, hf.nested_type = some x → linkNestedType hf (some d) = hf)) ∧
    (∀ (msgs : List Message) (nm : String) (hf : Fld),
      dictGet? (strip_msg_header_fields msgs).2 nm = some hf →
      hf.is_nested = true ∧ normalize hf.type_name = normalize MSG_HEADER_TYPE_NAME) := by
  refine ⟨fun ms stripped d => rfl, ?_, ?_, strip_msg_header_fields_entry⟩
  · intro stripped d mt hn
    unfold injectHeaderOne
    rw [hn]
  · intro stripped d mt hf hs
    refine ⟨?_, rfl, rfl, rfl, ?_, ?_, ?_⟩
    · unfold injectHeaderOne
      rw [hs]
    · show (Fld.mk (if (linkNestedType hf (some d)).original_name.contains '_' then
          snakeToCamel (linkNestedType hf (some d)).original_name
        else (linkNestedType hf (some d)).original_name) _ _ _ _ _).original_name = _
      rw [Fld.original_name, linkNestedType_original_name]
    · intro hnt
      unfold linkNestedType
      rw [hnt]
      rfl
    · intro x hx
      unfold linkNestedType
      rw [hx]

theorem dictGet?_eq_none_iff {α : Type} :
    ∀ {entries : List (String × α)} {key : String},
    dictGet? entries key = none ↔ key ∉ entries.map Prod.fst
  | [], key => by simp [dictGet?]
  | (k, v) :: rest, key => by
    rw [dictGet?]
    match hr : dictGet? rest key with
    | some r =>
      have hk := dictGet?_mem_keys hr
      simp only [List.map_cons, List.mem_cons]
      constructor
      · intro h
        exact absurd h (by simp)
      · intro h
        exact (h (Or.inr hk)).elim
    | none =>
      have ihr : key ∉ rest.map Prod.fst := dictGet?_eq_none_iff.mp hr
      by_cases hkk : (k == key : Bool)
      · have hke : k = key := by simpa using hkk
        rw [if_pos hkk]
        simp [hke]
      · have hke : ¬ k = key := by simpa using hkk
        rw [if_neg hkk]
        simp only [List.map_cons, List.mem_cons]
        constructor
        · intro _ hc
          rcases hc with hc | hc
          · exact hke hc.symm
          · exact ihr hc
        · intro _
          trivial

/-- Each direct-child node's own entity appears among the flattened nested
messages, under its declared name. -/
theorem protoNestedMsgs_head_mem {n : ProtoMessageNode} {nested : List ProtoMessageNode}
    (hn : n ∈ nested) (src : String) :
    ∃ m ∈ protoNestedMsgs nested src, m.original_name = n.name := by
  induction hn with
  | head rest =>
    cases n with
    | mk nm nf nn =>
      refine ⟨Message.mk nm (normalize nm)
        (nf.map (protoFieldOf (protoNestedEntries nn (protoNestedMsgs nn src)))) src,
        ?_, rfl⟩
      rw [protoNestedMsgs, transformProtoMessage]
      exact List.mem_append_left _ (List.mem_cons_self _ _)
  | tail b hb ih =>
    obtain ⟨m, hm, he⟩ := ih
    refine ⟨m, ?_, he⟩
    rw [protoNestedMsgs]
    exact List.mem_append_right _ hm

/-- The `nested_by_name` dict has an entry for a key iff the key is a
direct-child nested message name. -/
theorem protoNestedEntries_key_iff (nested : List ProtoMessageNode) (src key : String) :
    dictGet? (protoNestedEntries nested (protoNestedMsgs nested src)) key ≠ none ↔
      key ∈ nested.map ProtoMessageNode.name := by
  constructor
  · intro hne
    match he : dictGet? (protoNestedEntries nested (protoNestedMsgs nested src)) key with
    | none => exact absurd he hne
    | some v =>
      have hmem := dictGet?_mem_keys he
      obtain ⟨pr, hpr, hfst⟩ := List.mem_map.mp hmem
      obtain ⟨m, hm, hcond⟩ := List.mem_filterMap.mp hpr
      by_cases hc : (nested.map ProtoMessageNode.name).contains m.original_name
      · rw [if_pos hc] at hcond
        injection hcond with hcond
        rw [← hcond] at hfst
        rw [← hfst]
        exact List.elem_iff.mp hc
      · rw [if_neg hc] at hcond
        exact absurd hcond (by simp)
  · intro hmem
    rw [Ne, dictGet?_eq_none_iff]
    intro hnot
    apply hnot
    obtain ⟨n, hn, hname⟩ := List.mem_map.mp hmem
    obtain ⟨m, hm, hnm⟩ := protoNestedMsgs_head_mem hn src
    have hcont : (nested.map ProtoMessageNode.name).contains m.original_name = true := by
      apply List.elem_iff.mpr
      rw [hnm]
      exact List.mem_map.mpr ⟨n, hn, rfl⟩
    refine List.mem_map.mpr ⟨(m.original_name, m), ?_, by rw [hnm, hname]⟩
    refine List.mem_filterMap.mpr ⟨m, hm, ?_⟩
    rw [if_pos hcont]

/-- C5: in the IDL transformer every field with a non-primitive declared
type (the fixed 15-primitive set) is marked `is_nested` immediately,
whether or not the type is defined locally, while the `nested_type`
reference is attached exactly when the type name matches a direct-child
nested message of the containing message. -/
theorem claim_C5_idl_nested_marking (name : String) (flds : List ProtoFieldNode)
    (nested : List ProtoMessageNode) (src : String) :
    transformProtoMessage (.mk name flds nested) src =
      Message.mk name (normalize name)
        (flds.map (protoFieldOf (protoNestedEntries nested (protoNestedMsgs nested src))))
        src :: protoNestedMsgs nested src ∧
    (∀ f : ProtoFieldNode,
      (protoFieldOf (protoNestedEntries nested (protoNestedMsgs nested src)) f).is_nested =
        !(PROTO_PRIMITIVES.contains f.type_name)) ∧
    (∀ f : ProtoFieldNode,
      ((protoFieldOf (protoNestedEntries nested (protoNestedMsgs nested src)) f).nested_type
          ≠ none ↔
        f.type_name ∈ nested.map ProtoMessageNode.name)) ∧
    PROTO_PRIMITIVES = ["int32", "sint32", "sfixed32", "uint32", "fixed32",
      "int64", "sint64", "sfixed64", "uint64", "fixed64",
      "float", "double", "bool", "string", "bytes"] := by
  refine ⟨by rw [transformProtoMessage], fun f => rfl, fun f => ?_, rfl⟩
  have hacc : (protoFieldOf (protoNestedEntries nested (protoNestedMsgs nested src))
      f).nested_type =
      dictGet? (protoNestedEntries nested (protoNestedMsgs nested src)) f.type_name := rfl
  rw [hacc]
  exact protoNestedEntries_key_iff nested src f.type_name

/-- Full characterization of the alias-resolution loop, by strong
induction on the number of unvisited dict keys: starting from step `t`
with the first `t` chain names visited (all keys, all distinct), the loop
returns the first chain name that either is not a key or repeats an
earlier chain name. -/
theorem resolveAliasAux_spec (aliases : List (String × String)) (n0 : String) :
    ∀ (N t : Nat),
    ((aliases.map Prod.fst).toFinset \
      ((List.range t).reverse.map (aliasIter aliases n0)).toFinset).card = N →
    (∀ j, j < t → dictGet? aliases (aliasIter aliases n0 j) ≠ none ∧
      ∀ i, i < j → aliasIter aliases n0 i ≠ aliasIter aliases n0 j) →
    ∃ k, t ≤ k ∧
      resolveAliasAux aliases ((List.range t).reverse.map (aliasIter aliases n0))
        (aliasIter aliases n0 t) = aliasIter aliases n0 k ∧
      (∀ j, j < k → dictGet? aliases (aliasIter aliases n0 j) ≠ none ∧
        ∀ i, i < j → aliasIter aliases n0 i ≠ aliasIter aliases n0 j) ∧
      (dictGet? aliases (aliasIter aliases n0 k) = none ∨
        ∃ j < k, aliasIter aliases n0 j = aliasIter aliases n0 k) := by
  intro N
  induction N using Nat.strong_induction_on with
  | _ N ih =>
    intro t hN hinv
    rw [resolveAliasAux]
    by_cases hc : (dictGet? aliases (aliasIter aliases n0 t)).isSome ∧
        aliasIter aliases n0 t ∉ (List.range t).reverse.map (aliasIter aliases n0)
    · rw [dif_pos hc]
      have hseen : aliasIter aliases n0 t ::
          (List.range t).reverse.map (aliasIter aliases n0) =
          (List.range (t + 1)).reverse.map (aliasIter aliases n0) := by
        rw [List.range_succ, List.reverse_append]
        rfl
      have hnext : (dictGet? aliases (aliasIter aliases n0 t)).getD (aliasIter aliases n0 t)
          = aliasIter aliases n0 (t + 1) := rfl
      rw [hseen, hnext]
      have hinv2 : ∀ j, j < t + 1 → dictGet? aliases (aliasIter aliases n0 j) ≠ none ∧
          ∀ i, i < j → aliasIter aliases n0 i ≠ aliasIter aliases n0 j := by
        intro j hj
        rcases Nat.lt_succ_iff_lt_or_eq.mp hj with hj2 | hj2
        · exact hinv j hj2
        · subst hj2
          refine ⟨Option.isSome_iff_ne_none.mp hc.1, ?_⟩
          intro i hi heq
          apply hc.2
          exact List.mem_map.mpr ⟨i, by
            rw [List.mem_reverse, List.mem_range]
            exact hi, heq⟩
      have hmem : aliasIter aliases n0 t ∈ (aliases.map Prod.fst).toFinset \
          ((List.range t).reverse.map (aliasIter aliases n0)).toFinset := by
        rw [Finset.mem_sdiff]
        obtain ⟨v, hv⟩ := Option.isSome_iff_exists.mp hc.1
        exact ⟨List.mem_toFinset.mpr (dictGet?_mem_keys hv),
          fun h2 => hc.2 (List.mem_toFinset.mp h2)⟩
      have hlt : ((aliases.map Prod.fst).toFinset \
          ((List.range (t + 1)).reverse.map (aliasIter aliases n0)).toFinset).card < N := by
        rw [← hN]
        apply Finset.card_lt_card
        constructor
        · intro a ha
          rw [Finset.mem_sdiff] at ha ⊢
          refine ⟨ha.1, fun h2 => ha.2 ?_⟩
          rw [← hseen, List.toFinset_cons]
          exact Finset.mem_insert_of_mem h2
        · intro hsub
          have h2 := hsub hmem
          rw [Finset.mem_sdiff, ← hseen, List.toFinset_cons] at h2
          exact h2.2 (Finset.mem_insert_self _ _)
      obtain ⟨k, hk, hres, hinvk, hterm⟩ := ih _ hlt (t + 1) rfl hinv2
      exact ⟨k, Nat.le_trans (Nat.le_succ t) hk, hres, hinvk, hterm⟩
    · rw [dif_neg hc]
      refine ⟨t, Nat.le_refl t, rfl, hinv, ?_⟩
      rcases not_and_or.mp hc with h1 | h1
      · left
        exact Option.not_isSome_iff_eq_none.mp h1
      · right
        have h2 : aliasIter aliases n0 t ∈
            (List.range t).reverse.map (aliasIter aliases n0) := not_not.mp h1
        obtain ⟨j, hj, hje⟩ := List.mem_map.mp h2
        rw [List.mem_reverse, List.mem_range] at hj
        exact ⟨j, hj, hje⟩

/-- C7: alias resolution chases the typedef chain: the resolved name is a
chain iterate, every earlier iterate is a dict key not seen before, and
the stopping iterate either is absent from the dict (full resolution) or
repeats an earlier name (cycle: termination at the first repeat). The
two-hop example resolves `Id` to `int`; the cyclic map stops at `A`. -/
theorem claim_C7_alias_chain (aliases : List (String × String)) (name : String) :
    (∃ k, resolve_alias name aliases = aliasIter aliases name k ∧
      (∀ j, j < k → dictGet? aliases (aliasIter aliases name j) ≠ none ∧
        ∀ i, i < j → aliasIter aliases name i ≠ aliasIter aliases name j) ∧
      (dictGet? aliases (aliasIter aliases name k) = none ∨
        ∃ j < k, aliasIter aliases name j = aliasIter aliases name k)) ∧
    resolve_alias "Id" [("UserId", "int"), ("Id", "UserId")] = "int" ∧
    resolve_alias "A" [("A", "B"), ("B", "A")] = "A" := by
  refine ⟨?_, ?_, ?_⟩
  · obtain ⟨k, -, hres, hinvk, hterm⟩ :=
      resolveAliasAux_spec aliases name _ 0 rfl (by omega)
    exact ⟨k, hres, hinvk, hterm⟩
  · rw [resolve_alias, resolveAliasAux, dif_pos (by decide), resolveAliasAux,
      dif_pos (by decide), resolveAliasAux, dif_neg (by decide)]
    decide
  · rw [resolve_alias, resolveAliasAux, dif_pos (by decide), resolveAliasAux,
      dif_pos (by decide), resolveAliasAux, dif_neg (by decide)]
    decide

/-- C6: a `char name[N];` declaration parses to the char-array field
declaration and transforms to a non-repeated field of type `char`, while
any other array `T name[N];` parses to an array declaration and transforms
to a repeated field whose type is the alias-resolved `T`. -/
theorem claim_C6_char_array_irregularity (tchar tT tname tlb tnum trb tsemi : CppToken)
    (rest : List CppToken) (aliases : List (String × String))
    (hchar : tchar.type = .CHAR) (hT : tT.type = .IDENT) (hname : tname.type = .IDENT)
    (hlb : tlb.type = .LBRACKET) (hnum : tnum.type = .NUMBER)
    (hrb : trb.type = .RBRACKET) (hsemi : tsemi.type = .SEMICOLON) :
    (tryParseFieldDecl (tchar :: tname :: tlb :: tnum :: trb :: tsemi :: rest) =
        .ok (some ⟨"char", tname.value, false, true, false⟩, rest) ∧
      transform_field_decl ⟨"char", tname.value, false, true, false⟩ aliases =
        Fld.mk tname.value (normalize tname.value) "char" false false none) ∧
    (tryParseFieldDecl (tT :: tname :: tlb :: tnum :: trb :: tsemi :: rest) =
        .ok (some ⟨tT.value, tname.value, false, false, true⟩, rest) ∧
      transform_field_decl ⟨tT.value, tname.value, false, false, true⟩ aliases =
        Fld.mk tname.value (normalize tname.value) (resolve_alias tT.value aliases)
          true false none) := by
  obtain ⟨ty1, v1, l1, c1⟩ := tchar
  obtain ⟨ty2, v2, l2, c2⟩ := tT
  obtain ⟨ty3, v3, l3, c3⟩ := tname
  obtain ⟨ty4, v4, l4, c4⟩ := tlb
  obtain ⟨ty5, v5, l5, c5⟩ := tnum
  obtain ⟨ty6, v6, l6, c6⟩ := trb
  obtain ⟨ty7, v7, l7, c7⟩ := tsemi
  simp only at hchar hT hname hlb hnum hrb hsemi
  subst hchar hT hname hlb hnum hrb hsemi
  refine ⟨⟨rfl, rfl⟩, ?_, rfl⟩
  simp [tryParseFieldDecl, tryParseTypeSpec, peekT, peekTok, peekAtT, expectT]

/-- Application of C6 to `char customerName[64];` and `int scores[10];`. -/
theorem claim_C6_char_array_irregularity_witness :
    (tryParseFieldDecl [tok .CHAR "char", tok .IDENT "customerName", tok .LBRACKET "[",
        tok .NUMBER "64", tok .RBRACKET "]", tok .SEMICOLON ";"] =
      .ok (some ⟨"char", "customerName", false, true, false⟩, []) ∧
      transform_field_decl ⟨"char", "customerName", false, true, false⟩ [] =
        Fld.mk "customerName" (normalize "customerName") "char" false false none) ∧
    (tryParseFieldDecl [tok .IDENT "int", tok .IDENT "scores", tok .LBRACKET "[",
        tok .NUMBER "10", tok .RBRACKET "]", tok .SEMICOLON ";"] =
      .ok (some ⟨"int", "scores", false, false, true⟩, []) ∧
      transform_field_decl ⟨"int", "scores", false, false, true⟩ [] =
        Fld.mk "scores" (normalize "scores") (resolve_alias "int" []) true false none) :=
  claim_C6_char_array_irregularity (tok .CHAR "char") (tok .IDENT "int")
    (tok .IDENT "scores") (tok .LBRACKET "[") (tok .NUMBER "10") (tok .RBRACKET "]")
    (tok .SEMICOLON ";") [] [] rfl rfl rfl rfl rfl rfl rfl |>.elim
      (fun _ h2 => ⟨claim_C6_char_array_irregularity (tok .CHAR "char") (tok .IDENT "int")
        (tok .IDENT "customerName") (tok .LBRACKET "[") (tok .NUMBER "64")
        (tok .RBRACKET "]") (tok .SEMICOLON ";") [] [] rfl rfl rfl rfl rfl rfl rfl |>.1,
        h2⟩)

/-- C9, evaluated at the failing input: a top-level forward declaration
`struct Foo;` yields no record, but the same declaration inside a struct
body yields an entity `Foo` (with no fields) in the transformed output,
contradicting the claim and the parser's own skip comment. -/
theorem claim_C9_forward_decl_eval :
    parse_cpp fwdTopToks = .ok ⟨[], []⟩ ∧
    parse_and_transform_cpp fwdNestedToks "f.h" =
      .ok [Message.mk "Outer" (normalize "Outer") [] "f.h",
        Message.mk "Foo" (normalize "Foo") [] "f.h"] :=
  ⟨rfl, rfl⟩

/-- Application of C4 at a concrete Rep* match with a stripped header
field. -/
theorem claim_C4_reply_header_injection_witness :
    dictGet? [("RepOrder", exRepHeaderFld)] exRepOkMatch.proto_message.original_name =
      some exRepHeaderFld ∧
    injectHeaderOne [("RepOrder", exRepHeaderFld)] (some exMsgHeaderDef) exRepOkMatch =
      { exRepOkMatch with field_mappings :=
          ⟨linkNestedType exRepHeaderFld (some exMsgHeaderDef),
            syntheticHeaderFld (linkNestedType exRepHeaderFld (some exMsgHeaderDef)),
            true⟩ :: exRepOkMatch.field_mappings } :=
  ⟨rfl, (claim_C4_reply_header_injection.2.2.1 [("RepOrder", exRepHeaderFld)]
    exMsgHeaderDef exRepOkMatch exRepHeaderFld rfl).1⟩

end Polyglot
